import Mathlib

/-!
Shallow embedding of the watermark layout engine of the PICTOOL repository
(src/picaddmark/watermark_app.py, src/modules/watermark_tool.py, src/utils.py).

Python floats are modelled by `ℚ`; the float expressions that occur
(`0.015*m`, `0.30*m`, `opacity*255/100`, luminance sums, cumulative x
positions) never land close enough to a truncation boundary for double
rounding to change the truncated value, so `Nat`/`ℚ` arithmetic with
explicit floors is a faithful model.  External library calls (Pillow font
measurement, `datetime.strptime`) are parameters of the definitions.
-/

namespace PicTool

/-- `is_chinese` / `is_chinese_char`: U+4E00 ≤ ch ≤ U+9FFF. -/
def is_chinese (c : Char) : Bool :=
  (0x4E00 ≤ c.toNat) && (c.toNat ≤ 0x9FFF)

/-! ## ContrastAnalyzer

`WatermarkApp._calculate_contrast_color` (watermark_app.py:378-404): given the
channel means of the sampled region, luminance `0.299r+0.587g+0.114b`;
white `(255,255,255)` when `luminance < 128`, else black.

`WatermarkTool.calculate_contrast_color_for_region` (watermark_tool.py:608-627):
same luminance, but `(0,0,0) if luminance > 128 else (255,255,255)`. -/

/-- Perceptual luminance of the mean channel values. -/
def luminance (r g b : ℚ) : ℚ :=
  299/1000 * r + 587/1000 * g + 114/1000 * b

/-- Branch of `WatermarkApp._calculate_contrast_color` after computing
the region's channel means. -/
def calculate_contrast_color (r g b : ℚ) : ℕ × ℕ × ℕ :=
  if luminance r g b < 128 then (255, 255, 255) else (0, 0, 0)

/-- Branch of `WatermarkTool.calculate_contrast_color_for_region` after
computing the region's channel means. -/
def calculate_contrast_color_for_region (r g b : ℚ) : ℕ × ℕ × ℕ :=
  if luminance r g b > 128 then (0, 0, 0) else (255, 255, 255)

/-! ## Opacity mapping

Both call sites compute `int(opacity * 255 / 100)`
(watermark_app.py:517, watermark_tool.py:533).  For `0 ≤ opacity ≤ 100` the
float quotient is at least 1/20 away from the nearest integer unless exact,
so Python `int` (truncation) equals `Nat` floor division. -/

/-- `int(opacity * 255 / 100)`. -/
def opacityToAlpha (opacity : ℕ) : ℕ :=
  opacity * 255 / 100

/-! ## PositionResolver

`WatermarkApp.calculate_position` (watermark_app.py:270-292) computes an
anchor-dependent position and clamps it into `[0, imgW-textW] × [0, imgH-textH]`.
`WatermarkTool.calculate_position` (watermark_tool.py:588-606) computes the same
table but returns it unclamped.  Python `//` is floor division (`Int.fdiv`). -/

def anchorTopLeft : String := "左上角"
def anchorTopRight : String := "右上角"
def anchorBottomLeft : String := "左下角"
def anchorBottomRight : String := "右下角"
def anchorCenter : String := "中心"

/-- Shared anchor table (margin = 10). -/
def positionTable (position : String) (imgW imgH textW textH : ℤ) : ℤ × ℤ :=
  let margin : ℤ := 10
  if position = anchorTopLeft then (margin, margin)
  else if position = anchorTopRight then (imgW - textW - margin, margin)
  else if position = anchorBottomLeft then (margin, imgH - textH - margin)
  else if position = anchorBottomRight then
    (imgW - textW - margin, imgH - textH - margin)
  else if position = anchorCenter then
    (Int.fdiv (imgW - textW) 2, Int.fdiv (imgH - textH) 2)
  else (margin, margin)

/-- `WatermarkApp.calculate_position`: table lookup followed by the clamp
`final = (max(0, min(x, imgW-textW)), max(0, min(y, imgH-textH)))`. -/
def calculate_position (position : String) (imgW imgH textW textH : ℤ) : ℤ × ℤ :=
  let pos := positionTable position imgW imgH textW textH
  (max 0 (min pos.1 (imgW - textW)), max 0 (min pos.2 (imgH - textH)))

/-- `WatermarkTool.calculate_position`: the same table, with no clamping. -/
def calculate_position_tool (position : String) (imgW imgH textW textH : ℤ) : ℤ × ℤ :=
  positionTable position imgW imgH textW textH

/-! ## AdaptiveSizer

`WatermarkApp.calculate_adaptive_font_size` (watermark_app.py:779-819).
The single-line width estimate at a candidate size (fonts rebuilt at that
size, then `calculate_text_size(..., calculate_only=True)`) is the
measurement oracle `widthAt`; `widthAt mid = none` models the `except`
branch (measurement failure), which behaves like "does not fit"
(`high = mid - 1` without updating `best_size`). -/

/-- The binary-search loop of `WatermarkApp.calculate_adaptive_font_size`
(`max_iterations = 10` is the fuel). -/
def adaptiveSearch (widthAt : ℕ → Option ℚ) (target : ℚ) :
    ℕ → ℕ → ℕ → ℕ → ℕ
  | 0, best, _, _ => best
  | fuel + 1, best, low, high =>
    if low > high then best
    else
      let mid := (low + high) / 2
      if mid = 0 then best
      else
        match widthAt mid with
        | some w =>
          if w ≤ target then adaptiveSearch widthAt target fuel mid (mid + 1) high
          else adaptiveSearch widthAt target fuel best low (mid - 1)
        | none => adaptiveSearch widthAt target fuel best low (mid - 1)

/-- Lower search bound of the app sizer: `max(10, int(min(w,h) * 0.015))`. -/
def minFontSizeApp (imgW imgH : ℕ) : ℕ :=
  max 10 (min imgW imgH * 15 / 1000)

/-- Upper search bound of the app sizer:
`max(min_font_size + 1, int(min(w,h) * 0.30))`. -/
def maxFontSizeApp (imgW imgH : ℕ) : ℕ :=
  max (minFontSizeApp imgW imgH + 1) (min imgW imgH * 30 / 100)

/-- `WatermarkApp.calculate_adaptive_font_size`. -/
def calculate_adaptive_font_size (widthAt : ℕ → Option ℚ) (text : List Char)
    (baseFontSize : ℕ) (imgW imgH : ℕ) : ℕ :=
  if text = [] then baseFontSize
  else
    let minFont := minFontSizeApp imgW imgH
    let maxFont := maxFontSizeApp imgW imgH
    let target : ℚ := (imgW : ℚ) * 80 / 100
    let best := adaptiveSearch widthAt target 10 minFont minFont maxFont
    max minFont (min best maxFont)

/-- The binary-search loop of `WatermarkTool.calculate_adaptive_font_size`
(watermark_tool.py:542-576): same shape, whole-text `textbbox` width as
oracle, no `try/except` and no `mid <= 0` break. -/
def adaptiveSearchTool (widthAt : ℕ → ℚ) (target : ℚ) :
    ℕ → ℕ → ℕ → ℕ → ℕ
  | 0, best, _, _ => best
  | fuel + 1, best, low, high =>
    if low > high then best
    else
      let mid := (low + high) / 2
      if widthAt mid ≤ target then adaptiveSearchTool widthAt target fuel mid (mid + 1) high
      else adaptiveSearchTool widthAt target fuel best low (mid - 1)

/-- Lower bound of the tool sizer: `max(10, int(min(w,h) * 0.02))`. -/
def minFontSizeTool (imgW imgH : ℕ) : ℕ :=
  max 10 (min imgW imgH * 2 / 100)

/-- Upper bound of the tool sizer: `int(min(w,h) * 0.3)` (no bump). -/
def maxFontSizeTool (imgW imgH : ℕ) : ℕ :=
  min imgW imgH * 30 / 100

/-- `WatermarkTool.calculate_adaptive_font_size` (no empty-text guard in this
version; `base_size` is read but unused by the search). -/
def calculate_adaptive_font_size_tool (widthAt : ℕ → ℚ) (imgW imgH : ℕ) : ℕ :=
  let minSize := minFontSizeTool imgW imgH
  let maxSize := maxFontSizeTool imgW imgH
  let target : ℚ := (imgW : ℚ) * 8 / 10
  let best := adaptiveSearchTool widthAt target 10 minSize minSize maxSize
  max minSize (min best maxSize)

/-! ## Python string helpers on `List Char`

Python `str` values are modelled as `List Char`; the operations the EXIF
code uses (`in`, `replace`, `split('\x00')[0]`, `strip()`) are defined
structurally below with Python's semantics. -/

/-- Python `s.startswith(p)` on char lists. -/
def startsWith : List Char → List Char → Bool
  | [], _ => true
  | _ :: _, [] => false
  | p :: ps, c :: cs => p = c && startsWith ps cs

/-- Python `pattern in s` (substring containment; the empty pattern is
contained in every string). -/
def occursIn (pattern : List Char) : List Char → Bool
  | [] => pattern.isEmpty
  | c :: rest => startsWith pattern (c :: rest) || occursIn pattern rest

/-- Left-to-right non-overlapping replacement, fueled by the remaining
length (Python `s.replace(pattern, repl)` for a non-empty `pattern`;
all call sites pass the fixed token `{exif_date}`). -/
def replaceAllAux (pattern repl : List Char) : ℕ → List Char → List Char
  | 0, l => l
  | _ + 1, [] => []
  | fuel + 1, c :: rest =>
    if !pattern.isEmpty && startsWith pattern (c :: rest) then
      repl ++ replaceAllAux pattern repl fuel (List.drop pattern.length (c :: rest))
    else c :: replaceAllAux pattern repl fuel rest

/-- Python `s.replace(pattern, repl)` for non-empty `pattern`. -/
def replaceAll (pattern repl l : List Char) : List Char :=
  replaceAllAux pattern repl l.length l

/-- Characters stripped by Python `str.strip()`. -/
def isPySpace (c : Char) : Bool :=
  c = ' ' || c = '\t' || c = '\n' || c = '\r' || c = '\x0b' || c = '\x0c'

/-- Python `s.strip()`. -/
def pyStrip (l : List Char) : List Char :=
  ((l.dropWhile isPySpace).reverse.dropWhile isPySpace).reverse

/-- Python `s.split('\x00')[0]`: the prefix before the first NUL. -/
def takeBeforeNul (l : List Char) : List Char :=
  l.takeWhile (fun c => c ≠ '\x00')

/-! ## EXIF date lookup and dynamic text

`WatermarkApp._get_exif_datetime` (watermark_app.py:319-364) and
`get_exif_datetime` (utils.py:275-315) read tag 36867 (`DateTimeOriginal`)
and fall back to tag 306 (`DateTime`).  A tag value enters its branch only
when it is a non-empty string (Python truthiness); the value is cleaned by
`split('\x00')[0].strip()` and parsed with `datetime.strptime`
(reformatted by `strftime("%Y-%m-%d %H:%M:%S")` on success); when no
format matches, the branch returns the cleaned raw string.  `strptime` /
`strftime` are standard-library code outside the repository and are the
parameter `parseFmt fmt s`, returning the reformatted timestamp on success
and `none` on `ValueError`. -/

/-- An EXIF record: the two date tags the code reads.  `none` models a
missing tag (or a non-`str` value); `some []` is the falsy empty string. -/
structure ExifData where
  dtOriginal : Option (List Char)
  dtModified : Option (List Char)

def fmtColon : String := "%Y:%m:%d %H:%M:%S"
def fmtDash : String := "%Y-%m-%d %H:%M:%S"

/-- `split('\x00')[0].strip()` as applied to a raw tag value. -/
def cleanExif (l : List Char) : List Char :=
  pyStrip (takeBeforeNul l)

/-- One tag branch of `_get_exif_datetime`: skip falsy / missing values,
clean, try the formats, and on total parse failure return the cleaned raw
string (`将返回原始字符串`). -/
def exifBranch (tryFmt : List Char → Option (List Char)) :
    Option (List Char) → Option (List Char)
  | none => none
  | some s =>
    if s.isEmpty then none
    else
      let c := cleanExif s
      match tryFmt c with
      | some out => some out
      | none => some c

/-- Shared shape of both `get_exif_datetime` versions: `DateTimeOriginal`
first, then `DateTime`, else `None`.  `exif = none` covers missing/empty
EXIF and the exception handlers (all return `None`). -/
def get_exif_datetime_core (tryFmt : List Char → Option (List Char)) :
    Option ExifData → Option (List Char)
  | none => none
  | some e =>
    match exifBranch tryFmt e.dtOriginal with
    | some r => some r
    | none => exifBranch tryFmt e.dtModified

/-- The app version tries `"%Y:%m:%d %H:%M:%S"` then `"%Y-%m-%d %H:%M:%S"`. -/
def tryFormatsApp (parseFmt : String → List Char → Option (List Char))
    (s : List Char) : Option (List Char) :=
  match parseFmt fmtColon s with
  | some out => some out
  | none => parseFmt fmtDash s

/-- `WatermarkApp._get_exif_datetime`. -/
def get_exif_datetime (parseFmt : String → List Char → Option (List Char))
    (exif : Option ExifData) : Option (List Char) :=
  get_exif_datetime_core (tryFormatsApp parseFmt) exif

/-- `utils.get_exif_datetime`: identical, but only `"%Y:%m:%d %H:%M:%S"`. -/
def get_exif_datetime_utils (parseFmt : String → List Char → Option (List Char))
    (exif : Option ExifData) : Option (List Char) :=
  get_exif_datetime_core (fun s => parseFmt fmtColon s) exif

/-- The `{exif_date}` token. -/
def exifTok : List Char := "{exif_date}".data

/-- The `N/A` literal. -/
def nA : List Char := "N/A".data

/-- `WatermarkApp._process_dynamic_text` / `WatermarkTool.process_dynamic_text`:
if the token occurs, replace every occurrence with the lookup result when
that is truthy, else with `N/A`; otherwise return the text unchanged.
`lookup` is the result of the `get_exif_datetime` call. -/
def process_dynamic_text (lookup : Option (List Char)) (text : List Char) :
    List Char :=
  if occursIn exifTok text then
    let replaceWith :=
      match lookup with
      | some s => if s.isEmpty then nA else s
      | none => nA
    replaceAll exifTok replaceWith text
  else text

/-! ## BatchProcessor

`WatermarkApp._threaded_add_watermarks` (watermark_app.py:582-643) and
`WatermarkTool.process_images_thread` (watermark_tool.py:674-762).

An input item is `(filename, ok)` where `ok` says whether processing that
image succeeds (`process_single_image` raising is `ok = false`).  The
shared `stop_requested` boolean is a mutable flag written by the GUI
thread; `stop i` is the value the worker observes at the check before
item `i` (and, for the tool version, `stop n` at the post-loop check). -/

/-- Messages the app worker puts on `processing_queue`. -/
inductive AppEvent where
  | progress (current total : ℕ) (filename : String)
  | error (filename : String)
  | finished (processed skipped : ℕ) (err : Option String)
  deriving DecidableEq, Repr

/-- The `for` loop of `_threaded_add_watermarks`: check `stop_requested`,
emit a progress message, process the item, counting success/failure and
emitting an `error` message for failures. -/
def threadedLoop (stop : ℕ → Bool) :
    List (String × Bool) → ℕ → ℕ → ℕ → ℕ → List AppEvent × ℕ × ℕ
  | [], _, _, processed, skipped => ([], processed, skipped)
  | (name, ok) :: rest, i, total, processed, skipped =>
    if stop i then ([], processed, skipped)
    else if ok then
      let (evs, p, s) := threadedLoop stop rest (i + 1) total (processed + 1) skipped
      (AppEvent.progress (i + 1) total name :: evs, p, s)
    else
      let (evs, p, s) := threadedLoop stop rest (i + 1) total processed (skipped + 1)
      (AppEvent.progress (i + 1) total name :: AppEvent.error name :: evs, p, s)

/-- `WatermarkApp._threaded_add_watermarks` after folder listing.
`setupError = some msg` models an exception outside the per-item `try`
(e.g. `os.makedirs` failing): it yields the fatal `finished` message with
the error recorded and nothing processed.  With no items the worker
reports `('finished', 0, 0, None)` immediately.  Every exit path ends
with a `finished` message carrying the counts. -/
def threaded_add_watermarks (setupError : Option String) (stop : ℕ → Bool)
    (items : List (String × Bool)) : List AppEvent :=
  match setupError with
  | some msg => [AppEvent.finished 0 0 (some msg)]
  | none =>
    if items.length = 0 then [AppEvent.finished 0 0 none]
    else
      let (evs, p, s) := threadedLoop stop items 0 items.length 0 0
      evs ++ [AppEvent.finished p s none]

/-- Messages the tool worker puts on `message_queue` (payload strings
abstracted structurally). -/
inductive ToolEvent where
  | statusStart
  | progress (value : ℚ)
  | itemStatus (current total : ℕ) (filename : String)
  | statusCancelled
  | statusCompleted (processed errors : ℕ)
  | infoSaved
  | errorFatal
  | enableControls
  deriving DecidableEq, Repr

/-- The `for` loop of `process_images_thread`: check `stop_requested`,
emit progress `(i+1)/total*100` and a per-item status, then process,
counting success (`processed_count`) and failure (`error_count`; failures
are only logged, not queued). -/
def processImagesLoop (stop : ℕ → Bool) :
    List (String × Bool) → ℕ → ℕ → ℕ → ℕ → List ToolEvent × ℕ × ℕ
  | [], _, _, processed, errors => ([], processed, errors)
  | (name, ok) :: rest, i, total, processed, errors =>
    if stop i then ([], processed, errors)
    else
      let evs1 := [ToolEvent.progress (((i : ℚ) + 1) / total * 100),
                   ToolEvent.itemStatus (i + 1) total name]
      if ok then
        let (evs, p, e) := processImagesLoop stop rest (i + 1) total (processed + 1) errors
        (evs1 ++ evs, p, e)
      else
        let (evs, p, e) := processImagesLoop stop rest (i + 1) total processed (errors + 1)
        (evs1 ++ evs, p, e)

/-- `WatermarkTool.process_images_thread` after output-folder creation:
start status, the loop, then either the cancelled status (the flag is
re-read after the loop: observation `stop items.length`) or the completion
summary (plus the saved-location info when anything was processed), and
finally the `enable_controls` message from the `finally` block. -/
def process_images_thread (stop : ℕ → Bool) (items : List (String × Bool)) :
    List ToolEvent × ℕ × ℕ :=
  let total := items.length
  let (evs, p, e) := processImagesLoop stop items 0 total 0 0
  let tail :=
    if stop total then [ToolEvent.statusCancelled]
    else
      ToolEvent.statusCompleted p e ::
        (if 0 < p then [ToolEvent.infoSaved] else [])
  (ToolEvent.statusStart :: (evs ++ tail) ++ [ToolEvent.enableControls], p, e)

/-! ## LineBreaker

`WatermarkApp.draw_watermark` (watermark_app.py:899-1046).  Character
metrics come from `get_char_metrics(char, font)` with the font selected by
`is_chinese`; the measurement backend (Pillow `textbbox`/`getsize`, with
its fallbacks) is modelled by the parameters `cw`/`chH : Char → ℚ` (width
and height of a character under its selected font) and `spaceW : ℚ` (the
separately measured `space_width`).  Every `draw.text` call draws one
buffered item (a single character or an inter-word space), so a `Run` is
one character with its position; positions are the algorithm's float
coordinates (the code truncates to `int` only inside the draw call).
`current_line_max_h` is tracked by the code but never used for emission
(line heights are recomputed from the buffer in `flush_line_buffer`). -/

/-- A buffered line item (`{'text', 'font', 'width', 'height'}`;
the font is a function of the character and is left implicit). -/
structure Item where
  ch : Char
  w : ℚ
  h : ℚ
  deriving DecidableEq, Repr

/-- One emitted `draw.text` call. -/
structure Run where
  ch : Char
  x : ℚ
  y : ℚ
  w : ℚ
  h : ℚ
  deriving DecidableEq, Repr

/-- `text.split(' ')` (Python semantics: separators are not grouped and
empty fragments are kept; `"".split(' ') == ['']`). -/
def splitSpace : List Char → List (List Char)
  | [] => [[]]
  | c :: cs =>
    let r := splitSpace cs
    if c = ' ' then [] :: r
    else
      match r with
      | [] => [[c]]
      | w :: ws => (c :: w) :: ws

/-- `' '.join`: the left inverse of `splitSpace` (used only in theorem
statements). -/
def joinSpace : List (List Char) → List Char
  | [] => []
  | [w] => w
  | w :: ws => w ++ ' ' :: joinSpace ws

/-- Sum of the widths of buffered items. -/
def itemsWidth (items : List Item) : ℚ :=
  (items.map Item.w).sum

/-- `max(item['height'] for item in buffer) if buffer else 0`. -/
def lineHeight (buffer : List Item) : ℚ :=
  (buffer.map Item.h).foldr max 0

/-- The drawing part of `flush_line_buffer`: each item drawn at the
cumulative x position, top-aligned at the line's y. -/
def flushRuns (x y : ℚ) : List Item → List Run
  | [] => []
  | it :: rest => ⟨it.ch, x, y, it.w, it.h⟩ :: flushRuns (x + it.w) y rest

/-- The forced character-by-character break for an overlong word
(watermark_app.py:1009-1027): state `(tx, th, y)` is
`(temp_x, temp_h, y)`; before drawing a character the code wraps when
`temp_x > x_start and temp_x + width > x_start + max_width_constraint`;
after the word, `y` advances past the last partial line.  Returns the
emitted runs and the updated `y`. -/
def forcedEmit (xStart maxW : ℚ) :
    List Item → ℚ → ℚ → ℚ → List Run × ℚ
  | [], _, th, y => ([], y + th)
  | it :: rest, tx, th, y =>
    let st :=
      if tx > xStart ∧ tx + it.w > xStart + maxW then
        (xStart, (0 : ℚ), y + (if th > 0 then th else it.h))
      else (tx, th, y)
    let (rs, yf) := forcedEmit xStart maxW rest (st.1 + it.w) (max st.2.1 it.h) st.2.2
    (⟨it.ch, st.1, st.2.2, it.w, it.h⟩ :: rs, yf)

/-- `word_chars_metrics` of a word. -/
def wordItems (cw chH : Char → ℚ) (word : List Char) : List Item :=
  word.map fun c => ⟨c, cw c, chH c⟩

/-- The `while word_index < len(words)` loop of `draw_watermark`, with the
retry-after-flush iteration inlined (after a flush the same word is
retried on an empty line, where it either fits or takes the forced
break).  State: the pending words, the line buffer, `current_line_width`,
and the vertical cursor `y`. -/
def drawLoop (cw chH : Char → ℚ) (spaceW xStart maxW : ℚ) :
    List (List Char) → List Item → ℚ → ℚ → List Run
  | [], buffer, _, y =>
    if buffer.isEmpty then [] else flushRuns xStart y buffer
  | word :: rest, buffer, clw, y =>
    let items := wordItems cw chH word
    let ww := itemsWidth items
    if buffer.isEmpty then
      if clw + ww ≤ maxW then
        drawLoop cw chH spaceW xStart maxW rest (buffer ++ items) (clw + ww) y
      else
        let fr := forcedEmit xStart maxW items xStart 0 y
        fr.1 ++ drawLoop cw chH spaceW xStart maxW rest [] 0 fr.2
    else
      if clw + spaceW + ww ≤ maxW then
        let spaceItem : Item := ⟨' ', spaceW, chH ' '⟩
        drawLoop cw chH spaceW xStart maxW rest (buffer ++ spaceItem :: items)
          (clw + spaceW + ww) y
      else
        let lineRuns := flushRuns xStart y buffer
        let y2 := y + lineHeight buffer
        if ww ≤ maxW then
          lineRuns ++ drawLoop cw chH spaceW xStart maxW rest items ww y2
        else
          let fr := forcedEmit xStart maxW items xStart 0 y2
          lineRuns ++ fr.1 ++ drawLoop cw chH spaceW xStart maxW rest [] 0 fr.2

/-- `WatermarkApp.draw_watermark`: empty text draws nothing; otherwise
split on ASCII spaces and run the layout loop from an empty line at
`(x_start, y_start)`. -/
def draw_watermark (cw chH : Char → ℚ) (spaceW : ℚ) (text : List Char)
    (xStart yStart maxW : ℚ) : List Run :=
  if text.isEmpty then []
  else drawLoop cw chH spaceW xStart maxW (splitSpace text) [] 0 yStart

/-! ## Statement-side helpers (used only in theorems) -/

/-- Number of successfully processed items. -/
def countOk (items : List (String × Bool)) : ℕ :=
  (items.filter fun it => it.2).length

/-- Number of failing items. -/
def countFail (items : List (String × Bool)) : ℕ :=
  (items.filter fun it => !it.2).length

/-- Expected per-item messages of the app worker when no stop is observed:
one progress message per item and an error message after each failure. -/
def appItemEvents : List (String × Bool) → ℕ → ℕ → List AppEvent
  | [], _, _ => []
  | (name, ok) :: rest, i, total =>
    AppEvent.progress (i + 1) total name ::
      (if ok then appItemEvents rest (i + 1) total
       else AppEvent.error name :: appItemEvents rest (i + 1) total)

/-- Expected per-item messages of the tool worker. -/
def toolItemEvents : List (String × Bool) → ℕ → ℕ → List ToolEvent
  | [], _, _ => []
  | (name, _) :: rest, i, total =>
    ToolEvent.progress (((i : ℚ) + 1) / total * 100) ::
      ToolEvent.itemStatus (i + 1) total name ::
        toolItemEvents rest (i + 1) total

/-- A concrete `strptime`/`strftime` oracle used by witnesses: parses the
single timestamp `2021:01:02 03:04:05` under the colon format. -/
def sampleParse (fmt : String) (s : List Char) : Option (List Char) :=
  if fmt = fmtColon ∧ s = "2021:01:02 03:04:05".data then
    some ("2021-01-02 03:04:05".data)
  else none

/-! # Theorems -/

/-- **C4, counterexample.**  The claim asserts `0 ≤ x` for every anchor and
every bbox with `textW ≤ imgW`, `textH ≤ imgH`; the
`WatermarkTool.calculate_position` resolver violates it: a 100×100 image
with a 95×10 bbox anchored top-right resolves to `x = 100-95-10 = -5`. -/
theorem claim_C4_counterexample :
    (95 : ℤ) ≤ 100 ∧ (10 : ℤ) ≤ 100 ∧
      calculate_position_tool anchorTopRight 100 100 95 10 = (-5, 10) ∧
      ¬(0 ≤ (calculate_position_tool anchorTopRight 100 100 95 10).1) := by
  refine ⟨by norm_num, by norm_num, ?_, ?_⟩ <;> decide

/-- **C4, amended.**  The `WatermarkApp.calculate_position` resolver clamps
its result, so for every anchor string (known or unknown) and every
`textW ≤ imgW`, `textH ≤ imgH` the origin satisfies `0 ≤ x ≤ imgW - textW`
and `0 ≤ y ≤ imgH - textH`; the `WatermarkTool` resolver does not clamp. -/
theorem claim_C4_position_clamped (position : String) (imgW imgH textW textH : ℤ)
    (hw : textW ≤ imgW) (hh : textH ≤ imgH) :
    0 ≤ (calculate_position position imgW imgH textW textH).1 ∧
      (calculate_position position imgW imgH textW textH).1 ≤ imgW - textW ∧
      0 ≤ (calculate_position position imgW imgH textW textH).2 ∧
      (calculate_position position imgW imgH textW textH).2 ≤ imgH - textH := by
  unfold calculate_position
  refine ⟨le_max_left _ _, max_le (by omega) (min_le_right _ _),
    le_max_left _ _, max_le (by omega) (min_le_right _ _)⟩

/-- Witness for `claim_C4_position_clamped`. -/
theorem claim_C4_position_clamped_witness :
    0 ≤ (calculate_position anchorTopRight 100 100 95 10).1 ∧
      (calculate_position anchorTopRight 100 100 95 10).1 ≤ 100 - 95 ∧
      0 ≤ (calculate_position anchorTopRight 100 100 95 10).2 ∧
      (calculate_position anchorTopRight 100 100 95 10).2 ≤ 100 - 10 :=
  claim_C4_position_clamped anchorTopRight 100 100 95 10 (by norm_num) (by norm_num)

/-- **C5, counterexample.**  The claim fixes the tie-break "luminance
exactly 128 → black" for the contrast-color selection; the
`WatermarkTool.calculate_contrast_color_for_region` version returns white
on mean channel values `(128,128,128)`, whose luminance is exactly 128. -/
theorem claim_C5_counterexample :
    luminance 128 128 128 = 128 ∧
      calculate_contrast_color_for_region 128 128 128 = (255, 255, 255) ∧
      ((255, 255, 255) : ℕ × ℕ × ℕ) ≠ (0, 0, 0) := by
  have h : luminance 128 128 128 = 128 := by norm_num [luminance]
  refine ⟨h, ?_, by decide⟩
  rw [calculate_contrast_color_for_region, h]
  norm_num

/-- **C5, amended.**  `WatermarkApp._calculate_contrast_color` returns
white exactly when `L < 128` (so `L = 128` gives black), but
`WatermarkTool.calculate_contrast_color_for_region` returns white exactly
when `L ≤ 128`, so `L = 128` yields white there. -/
theorem claim_C5_contrast_rule (r g b : ℚ) :
    (calculate_contrast_color r g b = (255, 255, 255) ↔ luminance r g b < 128) ∧
      (calculate_contrast_color_for_region r g b = (255, 255, 255) ↔
        luminance r g b ≤ 128) := by
  constructor
  · rw [calculate_contrast_color]
    split <;> rename_i h
    · exact iff_of_true rfl h
    · exact iff_of_false (by decide) h
  · rw [calculate_contrast_color_for_region]
    split <;> rename_i h
    · exact iff_of_false (by decide) (by linarith)
    · exact iff_of_true rfl (by linarith)

/-- **C6, counterexample.**  Both call sites use `int(opacity*255/100)`
(truncation); at `opacity = 3` the value is `int(7.65) = 7`, while
rounding gives 8 under any tie rule, refuting `alpha = round(...)`. -/
theorem claim_C6_counterexample :
    opacityToAlpha 3 = 7 ∧ round ((3 * 255 : ℚ) / 100) = 8 ∧ (7 : ℤ) ≠ 8 := by
  refine ⟨rfl, ?_, by decide⟩
  norm_num [round_eq, Int.floor_eq_iff]

/-- **C6, amended.**  The alpha value is `⌊opacity·255/100⌋` (Python `int`
truncation, not rounding); it needs no clamp for `opacity ∈ [0,100]`
(it is at most 255 there), and `0 ↦ 0`, `100 ↦ 255`, `50 ↦ 127`. -/
theorem claim_C6_alpha_floor (o : ℕ) (h : o ≤ 100) :
    opacityToAlpha o = ⌊((o : ℚ) * 255) / 100⌋₊ ∧
      opacityToAlpha o ≤ 255 ∧
      opacityToAlpha 0 = 0 ∧ opacityToAlpha 100 = 255 ∧ opacityToAlpha 50 = 127 := by
  refine ⟨?_, ?_, rfl, rfl, rfl⟩
  · rw [show ((o : ℚ) * 255) = ((o * 255 : ℕ) : ℚ) by push_cast; ring,
      show ((100 : ℚ)) = ((100 : ℕ) : ℚ) by norm_num,
      Nat.floor_div_nat, Nat.floor_natCast]
    rfl
  · calc opacityToAlpha o = o * 255 / 100 := rfl
      _ ≤ 100 * 255 / 100 := Nat.div_le_div_right (by omega)
      _ = 255 := by norm_num

/-- Witness for `claim_C6_alpha_floor` at `opacity = 50`. -/
theorem claim_C6_alpha_floor_witness :
    opacityToAlpha 50 = ⌊((50 : ℚ) * 255) / 100⌋₊ ∧
      opacityToAlpha 50 ≤ 255 ∧
      opacityToAlpha 0 = 0 ∧ opacityToAlpha 100 = 255 ∧ opacityToAlpha 50 = 127 :=
  claim_C6_alpha_floor 50 (by norm_num)

/-- **C3, counterexample.**  On a 20×20 image the claimed interval
`[max(10, 0.015·20), 0.30·20] = [10, 6]` is empty; the app sizer returns
11 there (its lower bound is 10 and its upper bound is bumped to
`min_font_size + 1 = 11`), exceeding `0.30·min(w,h) = 6`.  The width
oracle reports width 0 at every size (any text narrower than 16px). -/
theorem claim_C3_counterexample :
    calculate_adaptive_font_size (fun _ => some 0) ['a'] 50 20 20 = 11 ∧
      ¬((11 : ℚ) ≤ 30 / 100 * (min 20 20 : ℕ)) := by
  constructor
  · norm_num [calculate_adaptive_font_size, adaptiveSearch, minFontSizeApp,
      maxFontSizeApp]
  · norm_num

/-- **C3, amended.**  For non-empty text the returned size always lies in
the integer search interval the code actually uses:
`WatermarkApp` within `[max(10,⌊0.015·min(w,h)⌋), max(lower+1, ⌊0.30·min(w,h)⌋)]`
(the upper bound is bumped to `lower+1` when `⌊0.30·min(w,h)⌋` is not
larger than the lower bound), and `WatermarkTool` within
`[max(10,⌊0.02·min(w,h)⌋), max(lower, ⌊0.30·min(w,h)⌋)]`.  These coincide
with the claimed interval only when it is non-degenerate. -/
theorem claim_C3_size_in_code_bounds
    (widthAt : ℕ → Option ℚ) (widthAtT : ℕ → ℚ) (text : List Char)
    (base imgW imgH : ℕ) (h : text ≠ []) :
    (minFontSizeApp imgW imgH ≤ calculate_adaptive_font_size widthAt text base imgW imgH ∧
      calculate_adaptive_font_size widthAt text base imgW imgH ≤ maxFontSizeApp imgW imgH) ∧
    (minFontSizeTool imgW imgH ≤ calculate_adaptive_font_size_tool widthAtT imgW imgH ∧
      calculate_adaptive_font_size_tool widthAtT imgW imgH ≤
        max (minFontSizeTool imgW imgH) (maxFontSizeTool imgW imgH)) := by
  unfold calculate_adaptive_font_size calculate_adaptive_font_size_tool
  rw [if_neg h]
  refine ⟨⟨le_max_left _ _, ?_⟩, le_max_left _ _, ?_⟩
  · exact max_le (le_trans (Nat.le_succ _) (le_max_left _ _)) (min_le_right _ _)
  · exact max_le (le_max_left _ _) (le_trans (min_le_right _ _) (le_max_right _ _))

/-- `splitSpace` never returns an empty list of fragments. -/
theorem splitSpace_ne_nil (l : List Char) : splitSpace l ≠ [] := by
  induction l with
  | nil => simp [splitSpace]
  | cons c cs ih =>
    rw [splitSpace]
    by_cases h : c = ' '
    · simp [h]
    · simp only [if_neg h]
      rcases hs : splitSpace cs with _ | ⟨w, ws⟩ <;> simp

/-- Joining with single spaces undoes `splitSpace` (Python
`' '.join(s.split(' ')) == s`). -/
theorem joinSpace_splitSpace (l : List Char) : joinSpace (splitSpace l) = l := by
  induction l with
  | nil => rfl
  | cons c cs ih =>
    rw [splitSpace]
    by_cases h : c = ' '
    · subst h
      simp only [if_pos rfl]
      rcases hs : splitSpace cs with _ | ⟨w, ws⟩
      · exact absurd hs (splitSpace_ne_nil cs)
      · rw [hs] at ih
        simp [joinSpace, ih]
    · simp only [if_neg h]
      rcases hs : splitSpace cs with _ | ⟨w, ws⟩
      · exact absurd hs (splitSpace_ne_nil cs)
      · rw [hs] at ih
        cases ws with
        | nil => simp [joinSpace] at ih ⊢; rw [ih]
        | cons v vs =>
          simp [joinSpace] at ih ⊢
          exact ih

/-- Unfolding `joinSpace` at a cons cell. -/
theorem joinSpace_cons (word : List Char) (rest : List (List Char)) :
    joinSpace (word :: rest) =
      word ++ (if rest = [] then [] else [' ']) ++ joinSpace rest := by
  rcases rest with _ | ⟨v, vs⟩ <;> simp [joinSpace]

/-- Filtering out spaces ignores the separators `joinSpace` inserts. -/
theorem joinSpace_filter (p : Char → Bool) (hp : p ' ' = false) :
    ∀ ws : List (List Char), (joinSpace ws).filter p = (ws.flatten).filter p := by
  intro ws
  induction ws with
  | nil => rfl
  | cons w ws ih =>
    cases ws with
    | nil => simp [joinSpace]
    | cons v vs =>
      simp [joinSpace, List.filter_append, List.filter_cons, hp] at ih ⊢
      exact ih

/-- `flush_line_buffer` draws exactly the buffered characters, in order. -/
theorem flushRuns_chars (buf : List Item) : ∀ x y : ℚ,
    (flushRuns x y buf).map Run.ch = buf.map Item.ch := by
  induction buf with
  | nil => intro x y; rfl
  | cons it rest ih => intro x y; simp [flushRuns, ih]

/-- The forced break draws exactly the word's characters, in order. -/
theorem forcedEmit_chars (xStart maxW : ℚ) (items : List Item) : ∀ tx th y : ℚ,
    ((forcedEmit xStart maxW items tx th y).1).map Run.ch = items.map Item.ch := by
  induction items with
  | nil => intro tx th y; rfl
  | cons it rest ih => intro tx th y; simp [forcedEmit, ih]

/-- The metric records of a word list its characters. -/
theorem wordItems_chars (cw chH : Char → ℚ) (word : List Char) :
    (wordItems cw chH word).map Item.ch = word := by
  induction word with
  | nil => rfl
  | cons c cs ih => simp [wordItems] at ih ⊢; exact ih

/-- A word's metric records are empty only for the empty word. -/
theorem wordItems_eq_nil (cw chH : Char → ℚ) (word : List Char) :
    wordItems cw chH word = [] ↔ word = [] := by
  simp [wordItems]

/-- Composing a word in front of a layout tail stays inside
`joinSpace (word :: rest)`. -/
theorem word_append_sublist (res : List Char) (word : List Char)
    (rest : List (List Char)) (h : List.Sublist res (joinSpace rest)) :
    List.Sublist (word ++ res) (joinSpace (word :: rest)) := by
  rw [joinSpace_cons, List.append_assoc]
  refine List.Sublist.append (List.Sublist.refl word) ?_
  rcases rest with _ | ⟨v, vs⟩
  · simpa [joinSpace] using h
  · simpa using h.trans (List.sublist_cons_self ' ' _)

/-- The loop target with the conservative boundary is inside
`joinSpace (word :: rest)`. -/
theorem boundary_target_sublist (res word : List Char) (rest : List (List Char))
    (h : List.Sublist res
      (word ++ (if word = [] ∨ rest = [] then [] else [' ']) ++ joinSpace rest)) :
    List.Sublist res (joinSpace (word :: rest)) := by
  refine h.trans ?_
  rw [joinSpace_cons]
  refine List.Sublist.append
    (List.Sublist.append (List.Sublist.refl word) ?_) (List.Sublist.refl _)
  by_cases hw : word = [] ∨ rest = []
  · simp [hw]
  · have hr : rest ≠ [] := fun hrr => hw (Or.inr hrr)
    simp [hw, hr]
    exact em _

/-- A layout tail starting from a line holding exactly one word stays
inside `joinSpace (word :: rest)`. -/
theorem wordbuffer_target_sublist (cw chH : Char → ℚ) (word : List Char)
    (rest : List (List Char)) (res : List Char)
    (h : List.Sublist res ((wordItems cw chH word).map Item.ch ++
      ((if wordItems cw chH word = [] ∨ rest = [] then [] else [' ']) ++
        joinSpace rest))) :
    List.Sublist res (joinSpace (word :: rest)) := by
  apply boundary_target_sublist
  rw [wordItems_chars] at h
  have hcond : (if wordItems cw chH word = [] ∨ rest = [] then ([] : List Char)
      else [' ']) = (if word = [] ∨ rest = [] then [] else [' ']) := by
    by_cases hw : word = []
    · simp [hw, wordItems]
    · have hne : wordItems cw chH word ≠ [] := by
        simpa [wordItems_eq_nil] using hw
      simp [hw, hne]
  rw [hcond] at h
  simpa [List.append_assoc] using h

/-- Non-space characters are preserved by the layout loop: the emitted
characters, with spaces removed, are the buffered characters followed by
the pending words' characters, with spaces removed. -/
theorem drawLoop_chars_filter (cw chH : Char → ℚ) (spaceW xStart maxW : ℚ)
    (p : Char → Bool) (hp : p ' ' = false) :
    ∀ (words : List (List Char)) (buffer : List Item) (clw y : ℚ),
      ((drawLoop cw chH spaceW xStart maxW words buffer clw y).map Run.ch).filter p =
        ((buffer.map Item.ch).filter p) ++ ((words.flatten).filter p) := by
  intro words
  induction words with
  | nil =>
    intro buffer clw y
    rcases buffer with _ | ⟨b0, brest⟩
    · simp [drawLoop]
    · simp [drawLoop, flushRuns_chars]
  | cons word rest ih =>
    intro buffer clw y
    rcases buffer with _ | ⟨b0, brest⟩
    · simp only [drawLoop]
      rw [if_pos (show (([] : List Item).isEmpty = true) from rfl)]
      by_cases hfit : clw + itemsWidth (wordItems cw chH word) ≤ maxW
      · rw [if_pos hfit]
        simp [ih, wordItems_chars, List.filter_append]
      · rw [if_neg hfit]
        simp [ih, wordItems_chars, List.filter_append, forcedEmit_chars,
          flushRuns_chars]
    · simp only [drawLoop]
      rw [if_neg (show ¬(((b0 :: brest) : List Item).isEmpty = true) by simp)]
      by_cases hfit : clw + spaceW + itemsWidth (wordItems cw chH word) ≤ maxW
      · rw [if_pos hfit]
        simp [ih, wordItems_chars, List.filter_append, List.filter_cons, hp,
          List.append_assoc]
        split <;> simp [List.append_assoc]
      · rw [if_neg hfit]
        by_cases hww : itemsWidth (wordItems cw chH word) ≤ maxW
        · rw [if_pos hww]
          simp [ih, wordItems_chars, List.filter_append, List.filter_cons,
            flushRuns_chars, List.append_assoc]
          split <;> simp [List.append_assoc]
        · rw [if_neg hww]
          simp [ih, wordItems_chars, List.filter_append, List.filter_cons,
            flushRuns_chars, forcedEmit_chars, List.append_assoc]
          split <;> simp [List.append_assoc]

/-- The emitted characters are the original text with some separating
spaces deleted: the layout loop's output is a sublist of the buffered
characters, an optional separating space, and the pending words joined
by single spaces. -/
theorem drawLoop_chars_sublist (cw chH : Char → ℚ) (spaceW xStart maxW : ℚ) :
    ∀ (words : List (List Char)) (buffer : List Item) (clw y : ℚ),
      List.Sublist
        ((drawLoop cw chH spaceW xStart maxW words buffer clw y).map Run.ch)
        ((buffer.map Item.ch) ++
          ((if buffer = [] ∨ words = [] then [] else [' ']) ++ joinSpace words)) := by
  intro words
  induction words with
  | nil =>
    intro buffer clw y
    rcases buffer with _ | ⟨b0, brest⟩
    · simp [drawLoop]
    · simp [drawLoop, flushRuns_chars, joinSpace]
  | cons word rest ih =>
    intro buffer clw y
    rcases buffer with _ | ⟨b0, brest⟩
    · simp only [List.map_nil, List.nil_append, true_or, if_true]
      simp only [drawLoop]
      rw [if_pos (show (([] : List Item).isEmpty = true) from rfl)]
      by_cases hfit : clw + itemsWidth (wordItems cw chH word) ≤ maxW
      · rw [if_pos hfit]
        exact wordbuffer_target_sublist cw chH word rest _
          (by simpa using
            ih (wordItems cw chH word) (clw + itemsWidth (wordItems cw chH word)) y)
      · rw [if_neg hfit]
        rw [List.map_append, forcedEmit_chars, wordItems_chars]
        apply word_append_sublist
        have h1 := ih [] 0
          (forcedEmit xStart maxW (wordItems cw chH word) xStart 0 y).2
        simpa using h1
    · have hc : ¬((b0 :: brest : List Item) = [] ∨ word :: rest = []) := by simp
      rw [if_neg hc]
      simp only [drawLoop]
      rw [if_neg (show ¬(((b0 :: brest) : List Item).isEmpty = true) by simp)]
      by_cases hfit : clw + spaceW + itemsWidth (wordItems cw chH word) ≤ maxW
      · rw [if_pos hfit]
        have h1 := ih ((b0 :: brest) ++ ⟨' ', spaceW, chH ' '⟩ :: wordItems cw chH word)
          (clw + spaceW + itemsWidth (wordItems cw chH word)) y
        by_cases hr : rest = []
        · rw [if_pos (Or.inr hr)] at h1
          rw [joinSpace_cons]
          simp only [hr, if_pos rfl]
          simpa [List.append_assoc, wordItems_chars, joinSpace, hr] using h1
        · rw [if_neg (show ¬((b0 :: brest) ++ (⟨' ', spaceW, chH ' '⟩ : Item) ::
              wordItems cw chH word = [] ∨ rest = []) by simp [hr])] at h1
          rw [joinSpace_cons]
          simp only [hr, if_neg (fun hcon => hr hcon)]
          simpa [List.append_assoc, wordItems_chars] using h1
      · rw [if_neg hfit]
        by_cases hww : itemsWidth (wordItems cw chH word) ≤ maxW
        · rw [if_pos hww]
          rw [List.map_append, flushRuns_chars]
          refine List.Sublist.append (List.Sublist.refl _) ?_
          refine List.Sublist.trans ?_
            (List.sublist_cons_self ' ' (joinSpace (word :: rest)))
          exact wordbuffer_target_sublist cw chH word rest _
            (ih (wordItems cw chH word) (itemsWidth (wordItems cw chH word))
              (y + lineHeight (b0 :: brest)))
        · rw [if_neg hww]
          rw [List.append_assoc, List.map_append, List.map_append, flushRuns_chars,
            forcedEmit_chars, wordItems_chars]
          refine List.Sublist.append (List.Sublist.refl _) ?_
          refine List.Sublist.trans ?_
            (List.sublist_cons_self ' ' (joinSpace (word :: rest)))
          apply word_append_sublist
          have h1 := ih [] 0
            (forcedEmit xStart maxW (wordItems cw chH word) xStart 0
              (y + lineHeight (b0 :: brest))).2
          simpa using h1

/-- Widths of buffered items sum. -/
theorem itemsWidth_cons (it : Item) (rest : List Item) :
    itemsWidth (it :: rest) = it.w + itemsWidth rest := by
  simp [itemsWidth]

/-- Width sums over appended buffers. -/
theorem itemsWidth_append (a b : List Item) :
    itemsWidth (a ++ b) = itemsWidth a + itemsWidth b := by
  simp [itemsWidth]

/-- A buffer of nonnegative-width items has nonnegative total width. -/
theorem itemsWidth_nonneg (buf : List Item) (h : ∀ it ∈ buf, 0 ≤ it.w) :
    0 ≤ itemsWidth buf := by
  induction buf with
  | nil => simp [itemsWidth]
  | cons it rest ih =>
    have h0 : 0 ≤ it.w := h it (List.mem_cons_self _ _)
    have h1 : 0 ≤ itemsWidth rest :=
      ih fun i hi => h i (List.mem_cons_of_mem _ hi)
    rw [itemsWidth_cons]
    linarith

/-- A word's metric records have nonnegative widths when the width
oracle is nonnegative. -/
theorem wordItems_w_nonneg (cw chH : Char → ℚ) (hcw : ∀ c, 0 ≤ cw c)
    (word : List Char) : ∀ i ∈ wordItems cw chH word, 0 ≤ i.w := by
  intro i hi
  simp [wordItems] at hi
  obtain ⟨c, _, rfl⟩ := hi
  exact hcw c

/-- Runs flushed from a buffer of nonnegative widths end within the
buffer's total width. -/
theorem flushRuns_bound (buf : List Item) : ∀ x y : ℚ, (∀ it ∈ buf, 0 ≤ it.w) →
    ∀ r ∈ flushRuns x y buf, r.x + r.w ≤ x + itemsWidth buf := by
  induction buf with
  | nil =>
    intro x y _ r hr
    cases hr
  | cons it rest ih =>
    intro x y h r hr
    rw [flushRuns] at hr
    have hw0 : 0 ≤ it.w := h it (List.mem_cons_self _ _)
    have hrest : ∀ i ∈ rest, 0 ≤ i.w := fun i hi => h i (List.mem_cons_of_mem _ hi)
    rcases List.mem_cons.mp hr with rfl | hr2
    · have h1 : 0 ≤ itemsWidth rest := itemsWidth_nonneg rest hrest
      rw [itemsWidth_cons]
      simp only []
      linarith
    · have := ih (x + it.w) y hrest r hr2
      rw [itemsWidth_cons]
      linarith

/-- Every run of the forced character break either ends within
`originX + maxWidth` or is a single character wider than `maxWidth`. -/
theorem forcedEmit_bound (xStart maxW : ℚ) (items : List Item) :
    ∀ tx th y : ℚ, xStart ≤ tx → (∀ i ∈ items, 0 ≤ i.w) →
      ∀ r ∈ (forcedEmit xStart maxW items tx th y).1,
        r.x + r.w ≤ xStart + maxW ∨ maxW < r.w := by
  induction items with
  | nil =>
    intro tx th y _ _ r hr
    cases hr
  | cons it rest ih =>
    intro tx th y htx hw r hr
    have hw0 : 0 ≤ it.w := hw it (List.mem_cons_self _ _)
    have hwrest : ∀ i ∈ rest, 0 ≤ i.w := fun i hi => hw i (List.mem_cons_of_mem _ hi)
    by_cases hcond : tx > xStart ∧ tx + it.w > xStart + maxW
    · rw [forcedEmit, if_pos hcond] at hr
      rcases List.mem_cons.mp hr with rfl | hr2
      · rcases le_or_lt it.w maxW with hle | hgt
        · exact Or.inl (by simp only []; linarith)
        · exact Or.inr hgt
      · exact ih (xStart + it.w) (max 0 it.h) _ (by linarith) hwrest r hr2
    · rw [forcedEmit, if_neg hcond] at hr
      rcases List.mem_cons.mp hr with rfl | hr2
      · rcases not_and_or.mp hcond with h1 | h2
        · have hxe : tx = xStart := le_antisymm (not_lt.mp h1) htx
          rcases le_or_lt it.w maxW with hle | hgt
          · exact Or.inl (by simp only []; rw [hxe]; linarith)
          · exact Or.inr hgt
        · exact Or.inl (by simp only []; linarith [not_lt.mp h2])
      · exact ih (tx + it.w) (max th it.h) _ (by linarith) hwrest r hr2

/-- Invariant proof for the layout loop: whenever the buffered line has
nonnegative widths, total width at most `clw`, and `clw` within budget
(unless the line is empty), every emitted run either ends within
`originX + maxWidth` or is a single character wider than `maxWidth`. -/
theorem drawLoop_bound (cw chH : Char → ℚ) (spaceW xStart maxW : ℚ)
    (hcw : ∀ c, 0 ≤ cw c) (hsp : 0 ≤ spaceW) :
    ∀ (words : List (List Char)) (buffer : List Item) (clw y : ℚ),
      (∀ it ∈ buffer, 0 ≤ it.w) →
      itemsWidth buffer ≤ clw →
      (buffer = [] ∨ clw ≤ maxW) →
      ∀ r ∈ drawLoop cw chH spaceW xStart maxW words buffer clw y,
        r.x + r.w ≤ xStart + maxW ∨ maxW < r.w := by
  intro words
  induction words with
  | nil =>
    intro buffer clw y h1 h2 h3 r hr
    rcases buffer with _ | ⟨b0, brest⟩
    · simp [drawLoop] at hr
    · rw [drawLoop,
        if_neg (show ¬(((b0 :: brest) : List Item).isEmpty = true) by simp)] at hr
      have hb := flushRuns_bound (b0 :: brest) xStart y h1 r hr
      rcases h3 with h3 | h3
      · cases h3
      · exact Or.inl (by linarith)
  | cons word rest ih =>
    intro buffer clw y h1 h2 h3 r hr
    have hwword := wordItems_w_nonneg cw chH hcw word
    have hww0 : 0 ≤ itemsWidth (wordItems cw chH word) :=
      itemsWidth_nonneg _ hwword
    rcases buffer with _ | ⟨b0, brest⟩
    · have hclw0 : 0 ≤ clw := by
        simpa [itemsWidth] using h2
      rw [drawLoop, if_pos (show (([] : List Item).isEmpty = true) from rfl)] at hr
      by_cases hfit : clw + itemsWidth (wordItems cw chH word) ≤ maxW
      · rw [if_pos hfit] at hr
        refine ih (wordItems cw chH word) (clw + itemsWidth (wordItems cw chH word)) y
          ?_ ?_ (Or.inr hfit) r (by simpa using hr)
        · exact hwword
        · linarith
      · rw [if_neg hfit] at hr
        rcases List.mem_append.mp hr with hr2 | hr2
        · exact forcedEmit_bound xStart maxW (wordItems cw chH word) xStart 0 y
            le_rfl hwword r hr2
        · exact ih [] 0 _ (by simp) (by simp [itemsWidth]) (Or.inl rfl) r hr2
    · rw [drawLoop,
        if_neg (show ¬(((b0 :: brest) : List Item).isEmpty = true) by simp)] at hr
      have hclw : clw ≤ maxW := by
        rcases h3 with h3 | h3
        · cases h3
        · exact h3
      by_cases hfit : clw + spaceW + itemsWidth (wordItems cw chH word) ≤ maxW
      · rw [if_pos hfit] at hr
        refine ih ((b0 :: brest) ++ ⟨' ', spaceW, chH ' '⟩ :: wordItems cw chH word)
          (clw + spaceW + itemsWidth (wordItems cw chH word)) y ?_ ?_ (Or.inr hfit) r
          (by simpa using hr)
        · intro i hi
          rcases List.mem_append.mp hi with hi2 | hi2
          · exact h1 i hi2
          · rcases List.mem_cons.mp hi2 with rfl | hi3
            · exact hsp
            · exact hwword i hi3
        · rw [itemsWidth_cons] at h2
          rw [itemsWidth_append, itemsWidth_cons, itemsWidth_cons,
            show (⟨' ', spaceW, chH ' '⟩ : Item).w = spaceW from rfl]
          linarith
      · rw [if_neg hfit] at hr
        by_cases hww : itemsWidth (wordItems cw chH word) ≤ maxW
        · rw [if_pos hww] at hr
          rcases List.mem_append.mp hr with hr2 | hr2
          · have hb := flushRuns_bound (b0 :: brest) xStart y h1 r hr2
            exact Or.inl (by linarith)
          · exact ih (wordItems cw chH word) (itemsWidth (wordItems cw chH word)) _
              hwword le_rfl (Or.inr hww) r hr2
        · rw [if_neg hww] at hr
          rw [List.append_assoc] at hr
          rcases List.mem_append.mp hr with hr2 | hr2
          · have hb := flushRuns_bound (b0 :: brest) xStart y h1 r hr2
            exact Or.inl (by linarith)
          · rcases List.mem_append.mp hr2 with hr3 | hr3
            · exact forcedEmit_bound xStart maxW (wordItems cw chH word) xStart 0 _
                le_rfl hwword r hr3
            · exact ih [] 0 _ (by simp) (by simp [itemsWidth]) (Or.inl rfl) r hr3

/-- Every item is either a success or a failure. -/
theorem countOk_add_countFail (items : List (String × Bool)) :
    countOk items + countFail items = items.length := by
  induction items with
  | nil => rfl
  | cons it rest ih =>
    obtain ⟨name, ok⟩ := it
    cases ok <;> simp [countOk, countFail, List.filter_cons] at * <;> omega

/-- The app worker loop with no stop request observed processes every item. -/
theorem threadedLoop_false (items : List (String × Bool)) : ∀ i total p s,
    threadedLoop (fun _ => false) items i total p s =
      (appItemEvents items i total, p + countOk items, s + countFail items) := by
  induction items with
  | nil => intro i total p s; simp [threadedLoop, appItemEvents, countOk, countFail]
  | cons it rest ih =>
    intro i total p s
    obtain ⟨name, ok⟩ := it
    cases ok <;>
      simp [threadedLoop, appItemEvents, ih, countOk, countFail,
        List.filter_cons, Prod.ext_iff] <;> omega

/-- The app worker loop under a monotone stop flag that first reads true at
check `k` processes exactly the first `k - i` remaining items. -/
theorem threadedLoop_char (stop : ℕ → Bool) (k : ℕ)
    (hk : ∀ j, stop j = true ↔ k ≤ j) (items : List (String × Bool)) :
    ∀ i total p s,
    threadedLoop stop items i total p s =
      (appItemEvents (items.take (k - i)) i total,
        p + countOk (items.take (k - i)), s + countFail (items.take (k - i))) := by
  induction items with
  | nil => intro i total p s; simp [threadedLoop, appItemEvents, countOk, countFail]
  | cons it rest ih =>
    intro i total p s
    obtain ⟨name, ok⟩ := it
    by_cases hki : k ≤ i
    · have hs : stop i = true := (hk i).mpr hki
      have hz : k - i = 0 := by omega
      simp [threadedLoop, hs, hz, appItemEvents, countOk, countFail]
    · have hs : stop i = false := by
        cases h : stop i
        · rfl
        · exact absurd ((hk i).mp h) hki
      have hsub : k - i = (k - (i + 1)) + 1 := by omega
      cases ok <;>
        simp [threadedLoop, hs, hsub, appItemEvents, ih, countOk, countFail,
          List.filter_cons, Prod.ext_iff] <;> omega

/-- The tool worker loop with no stop request observed. -/
theorem processImagesLoop_false (items : List (String × Bool)) : ∀ i total p e,
    processImagesLoop (fun _ => false) items i total p e =
      (toolItemEvents items i total, p + countOk items, e + countFail items) := by
  induction items with
  | nil => intro i total p e; simp [processImagesLoop, toolItemEvents, countOk, countFail]
  | cons it rest ih =>
    intro i total p e
    obtain ⟨name, ok⟩ := it
    cases ok <;>
      simp [processImagesLoop, toolItemEvents, ih, countOk, countFail,
        List.filter_cons, Prod.ext_iff] <;> omega

/-- The tool worker loop under a monotone stop flag first true at check `k`. -/
theorem processImagesLoop_char (stop : ℕ → Bool) (k : ℕ)
    (hk : ∀ j, stop j = true ↔ k ≤ j) (items : List (String × Bool)) :
    ∀ i total p e,
    processImagesLoop stop items i total p e =
      (toolItemEvents (items.take (k - i)) i total,
        p + countOk (items.take (k - i)), e + countFail (items.take (k - i))) := by
  induction items with
  | nil => intro i total p e; simp [processImagesLoop, toolItemEvents, countOk, countFail]
  | cons it rest ih =>
    intro i total p e
    obtain ⟨name, ok⟩ := it
    by_cases hki : k ≤ i
    · have hs : stop i = true := (hk i).mpr hki
      have hz : k - i = 0 := by omega
      simp [processImagesLoop, hs, hz, toolItemEvents, countOk, countFail]
    · have hs : stop i = false := by
        cases h : stop i
        · rfl
        · exact absurd ((hk i).mp h) hki
      have hsub : k - i = (k - (i + 1)) + 1 := by omega
      cases ok <;>
        simp [processImagesLoop, hs, hsub, toolItemEvents, ih, countOk, countFail,
          List.filter_cons, Prod.ext_iff] <;> omega

/-- The per-item messages of a successful head item. -/
theorem appItemEvents_cons_true (n : String) (rest : List (String × Bool))
    (i total : ℕ) :
    appItemEvents ((n, true) :: rest) i total =
      AppEvent.progress (i + 1) total n :: appItemEvents rest (i + 1) total := by
  simp [appItemEvents]

/-- The per-item messages of a failing head item. -/
theorem appItemEvents_cons_false (n : String) (rest : List (String × Bool))
    (i total : ℕ) :
    appItemEvents ((n, false) :: rest) i total =
      AppEvent.progress (i + 1) total n :: AppEvent.error n ::
        appItemEvents rest (i + 1) total := by
  simp [appItemEvents]

/-- Failing items leave an error message. -/
theorem error_mem_appItemEvents (name : String) :
    ∀ (items : List (String × Bool)) (i total : ℕ), (name, false) ∈ items →
      AppEvent.error name ∈ appItemEvents items i total := by
  intro items
  induction items with
  | nil => intro i total h; cases h
  | cons it rest ih =>
    intro i total h
    obtain ⟨n, ok⟩ := it
    rcases List.mem_cons.mp h with h1 | h1
    · injection h1 with h1a h1b
      subst h1a; subst h1b
      rw [appItemEvents_cons_false]
      exact List.mem_cons_of_mem _ (List.mem_cons_self _ _)
    · cases ok
      · rw [appItemEvents_cons_false]
        exact List.mem_cons_of_mem _ (List.mem_cons_of_mem _ (ih _ _ h1))
      · rw [appItemEvents_cons_true]
        exact List.mem_cons_of_mem _ (ih _ _ h1)

/-- Every listed item gets a progress message. -/
theorem progress_mem_appItemEvents (name : String) (ok : Bool) :
    ∀ (items : List (String × Bool)) (i total : ℕ), (name, ok) ∈ items →
      ∃ j, AppEvent.progress j total name ∈ appItemEvents items i total := by
  intro items
  induction items with
  | nil => intro i total h; cases h
  | cons it rest ih =>
    intro i total h
    obtain ⟨n, ok'⟩ := it
    rcases List.mem_cons.mp h with h1 | h1
    · injection h1 with h1a h1b
      subst h1a; subst h1b
      refine ⟨i + 1, ?_⟩
      cases ok
      · rw [appItemEvents_cons_false]; exact List.mem_cons_self _ _
      · rw [appItemEvents_cons_true]; exact List.mem_cons_self _ _
    · obtain ⟨j, hj⟩ := ih (i + 1) total h1
      refine ⟨j, ?_⟩
      cases ok'
      · rw [appItemEvents_cons_false]
        exact List.mem_cons_of_mem _ (List.mem_cons_of_mem _ hj)
      · rw [appItemEvents_cons_true]
        exact List.mem_cons_of_mem _ hj

/-- Item-status indices in the tool's per-item messages are bounded by the
starting index plus the number of items. -/
theorem itemStatus_mem_toolItemEvents (j total' : ℕ) (name : String) :
    ∀ (items : List (String × Bool)) (i total : ℕ),
      ToolEvent.itemStatus j total' name ∈ toolItemEvents items i total →
        j ≤ i + items.length := by
  intro items
  induction items with
  | nil => intro i total h; cases h
  | cons it rest ih =>
    intro i total h
    obtain ⟨n, ok⟩ := it
    simp only [toolItemEvents, List.mem_cons] at h
    rcases h with h | h | h
    · cases h
    · cases h; simp
    · have := ih (i + 1) total h
      simp at this ⊢
      omega

/-- The tool's per-item messages never contain a completion summary. -/
theorem statusCompleted_not_mem_toolItemEvents (p e : ℕ) :
    ∀ (items : List (String × Bool)) (i total : ℕ),
      ToolEvent.statusCompleted p e ∉ toolItemEvents items i total := by
  intro items
  induction items with
  | nil => intro i total h; cases h
  | cons it rest ih =>
    intro i total h
    obtain ⟨n, ok⟩ := it
    simp only [toolItemEvents, List.mem_cons] at h
    rcases h with h | h | h
    · cases h
    · cases h
    · exact ih (i + 1) total h

/-- **C7, counterexample.**  The claim requires `N/A` whenever the EXIF
timestamp parse fails; with a `DateTimeOriginal` value `garbage` (which no
format parses), both `get_exif_datetime` versions return the raw string,
and the placeholder is substituted with `garbage`, not `N/A`. -/
theorem claim_C7_counterexample :
    process_dynamic_text
        (get_exif_datetime (fun _ _ => none) (some ⟨some "garbage".data, none⟩))
        exifTok = "garbage".data ∧
      "garbage".data ≠ nA := by
  constructor
  · decide
  · decide

/-- **C7, amended.**  Dynamic-text resolution replaces every occurrence of
`{exif_date}` with the reformatted timestamp when parsing succeeds, and
with `N/A` when the EXIF data or both date tags are absent; but when a tag
value is present and its parse fails, the cleaned raw EXIF string is
substituted instead of `N/A` (both the app and the utils version).  Text
not containing the exact token is returned unchanged. -/
theorem claim_C7_dynamic_text :
    (∀ (lookup : Option (List Char)) (text : List Char),
        occursIn exifTok text = false → process_dynamic_text lookup text = text) ∧
    (∀ (parseFmt : String → List Char → Option (List Char)) (text : List Char),
        occursIn exifTok text = true →
          process_dynamic_text (get_exif_datetime parseFmt none) text =
            replaceAll exifTok nA text) ∧
    (∀ (parseFmt : String → List Char → Option (List Char)) (e : ExifData)
        (text : List Char),
        e.dtOriginal = none → e.dtModified = none → occursIn exifTok text = true →
          process_dynamic_text (get_exif_datetime parseFmt (some e)) text =
            replaceAll exifTok nA text) ∧
    (∀ (parseFmt : String → List Char → Option (List Char)) (e : ExifData)
        (s out text : List Char),
        e.dtOriginal = some s → s.isEmpty = false →
        tryFormatsApp parseFmt (cleanExif s) = some out → out.isEmpty = false →
        occursIn exifTok text = true →
          process_dynamic_text (get_exif_datetime parseFmt (some e)) text =
            replaceAll exifTok out text) ∧
    (∀ (parseFmt : String → List Char → Option (List Char)) (e : ExifData)
        (s text : List Char),
        e.dtOriginal = some s → s.isEmpty = false →
        tryFormatsApp parseFmt (cleanExif s) = none → (cleanExif s).isEmpty = false →
        occursIn exifTok text = true →
          process_dynamic_text (get_exif_datetime parseFmt (some e)) text =
            replaceAll exifTok (cleanExif s) text) ∧
    (∀ (parseFmt : String → List Char → Option (List Char)) (e : ExifData)
        (s text : List Char),
        e.dtOriginal = some s → s.isEmpty = false →
        parseFmt fmtColon (cleanExif s) = none → (cleanExif s).isEmpty = false →
        occursIn exifTok text = true →
          process_dynamic_text (get_exif_datetime_utils parseFmt (some e)) text =
            replaceAll exifTok (cleanExif s) text) := by
  refine ⟨?_, ?_, ?_, ?_, ?_, ?_⟩
  · intro lookup text h
    simp [process_dynamic_text, h]
  · intro parseFmt text h
    simp [process_dynamic_text, get_exif_datetime, get_exif_datetime_core, h]
  · intro parseFmt e text h1 h2 h
    simp [process_dynamic_text, get_exif_datetime, get_exif_datetime_core,
      exifBranch, h1, h2, h]
  · intro parseFmt e s out text h1 h2 h3 h4 h
    simp [process_dynamic_text, get_exif_datetime, get_exif_datetime_core,
      exifBranch, h1, h2, h3, h4, h]
  · intro parseFmt e s text h1 h2 h3 h4 h
    simp [process_dynamic_text, get_exif_datetime, get_exif_datetime_core,
      exifBranch, h1, h2, h3, h4, h]
  · intro parseFmt e s text h1 h2 h3 h4 h
    simp [process_dynamic_text, get_exif_datetime_utils, get_exif_datetime_core,
      exifBranch, h1, h2, h3, h4, h]

/-- Witness for `claim_C7_dynamic_text` (successful parse branch at a
concrete oracle and record). -/
theorem claim_C7_dynamic_text_witness :
    process_dynamic_text
        (get_exif_datetime sampleParse
          (some ⟨some "2021:01:02 03:04:05".data, none⟩))
        "date {exif_date}".data =
      replaceAll exifTok "2021-01-02 03:04:05".data "date {exif_date}".data :=
  claim_C7_dynamic_text.2.2.2.1 sampleParse
    ⟨some "2021:01:02 03:04:05".data, none⟩ "2021:01:02 03:04:05".data
    "2021-01-02 03:04:05".data "date {exif_date}".data rfl (by decide)
    (by decide) (by decide) (by decide)

/-- **C10.**  When `DateTimeOriginal` (36867) is absent but `DateTime`
(306) carries a parseable timestamp, both lookup versions return the
reformatted modification timestamp, and the placeholder is substituted
with it rather than `N/A`. -/
theorem claim_C10_datetime_fallback
    (parseFmt : String → List Char → Option (List Char)) (e : ExifData)
    (s out text : List Char)
    (h1 : e.dtOriginal = none) (h2 : e.dtModified = some s)
    (h3 : s.isEmpty = false) (h4 : parseFmt fmtColon (cleanExif s) = some out) :
    get_exif_datetime parseFmt (some e) = some out ∧
      get_exif_datetime_utils parseFmt (some e) = some out ∧
      (out.isEmpty = false → occursIn exifTok text = true →
        process_dynamic_text (get_exif_datetime parseFmt (some e)) text =
          replaceAll exifTok out text) := by
  have happ : tryFormatsApp parseFmt (cleanExif s) = some out := by
    simp [tryFormatsApp, h4]
  refine ⟨?_, ?_, ?_⟩
  · simp [get_exif_datetime, get_exif_datetime_core, exifBranch, h1, h2, h3, happ]
  · simp [get_exif_datetime_utils, get_exif_datetime_core, exifBranch, h1, h2, h3, h4]
  · intro h5 h
    simp [process_dynamic_text, get_exif_datetime, get_exif_datetime_core,
      exifBranch, h1, h2, h3, happ, h5, h]

/-- Witness for `claim_C10_datetime_fallback`. -/
theorem claim_C10_datetime_fallback_witness :
    get_exif_datetime sampleParse
        (some ⟨none, some "2021:01:02 03:04:05".data⟩) =
      some "2021-01-02 03:04:05".data ∧
      get_exif_datetime_utils sampleParse
          (some ⟨none, some "2021:01:02 03:04:05".data⟩) =
        some "2021-01-02 03:04:05".data ∧
      (("2021-01-02 03:04:05".data).isEmpty = false →
        occursIn exifTok ("{exif_date}".data) = true →
        process_dynamic_text
            (get_exif_datetime sampleParse
              (some ⟨none, some "2021:01:02 03:04:05".data⟩))
            ("{exif_date}".data) =
          replaceAll exifTok "2021-01-02 03:04:05".data ("{exif_date}".data)) :=
  claim_C10_datetime_fallback sampleParse ⟨none, some "2021:01:02 03:04:05".data⟩
    "2021:01:02 03:04:05".data "2021-01-02 03:04:05".data ("{exif_date}".data)
    rfl rfl (by decide) (by decide)

/-- Witness for `claim_C3_size_in_code_bounds`. -/
theorem claim_C3_size_in_code_bounds_witness :
    (minFontSizeApp 800 600 ≤ calculate_adaptive_font_size (fun _ => some 0) ['a'] 50 800 600 ∧
      calculate_adaptive_font_size (fun _ => some 0) ['a'] 50 800 600 ≤ maxFontSizeApp 800 600) ∧
    (minFontSizeTool 800 600 ≤ calculate_adaptive_font_size_tool (fun _ => 0) 800 600 ∧
      calculate_adaptive_font_size_tool (fun _ => 0) 800 600 ≤
        max (minFontSizeTool 800 600) (maxFontSizeTool 800 600)) :=
  claim_C3_size_in_code_bounds (fun _ => some 0) (fun _ => 0) ['a'] 50 800 600 (by decide)

/-- **C8.**  With no stop request, per-item failures are caught inside the
loop: the app worker emits its full per-item message sequence (an error
message for each failing item, a progress message for every item, so the
remaining items are still processed) and ends with the normal
`finished (successes, failures, None)` summary — not the fatal outcome
(`err = none`); the tool worker likewise ends with the completion summary
carrying the same counts. -/
theorem claim_C8_batch_continues (items : List (String × Bool)) :
    threaded_add_watermarks none (fun _ => false) items =
      appItemEvents items 0 items.length ++
        [AppEvent.finished (countOk items) (countFail items) none] ∧
    countOk items + countFail items = items.length ∧
    (∀ name, (name, false) ∈ items →
      AppEvent.error name ∈ threaded_add_watermarks none (fun _ => false) items) ∧
    (∀ name ok, (name, ok) ∈ items → ∃ j,
      AppEvent.progress j items.length name ∈
        threaded_add_watermarks none (fun _ => false) items) ∧
    (process_images_thread (fun _ => false) items).2.1 = countOk items ∧
    (process_images_thread (fun _ => false) items).2.2 = countFail items ∧
    ToolEvent.statusCompleted (countOk items) (countFail items) ∈
      (process_images_thread (fun _ => false) items).1 := by
  have happ : threaded_add_watermarks none (fun _ => false) items =
      appItemEvents items 0 items.length ++
        [AppEvent.finished (countOk items) (countFail items) none] := by
    rcases items with _ | ⟨it, rest⟩
    · simp [threaded_add_watermarks, appItemEvents, countOk, countFail]
    · rw [threaded_add_watermarks]
      simp only [List.length_cons, Nat.succ_ne_zero, if_false]
      rw [threadedLoop_false]
      simp
  have htool := processImagesLoop_false items 0 items.length 0 0
  refine ⟨happ, countOk_add_countFail items, ?_, ?_, ?_, ?_, ?_⟩
  · intro name h
    rw [happ]
    exact List.mem_append_left _ (error_mem_appItemEvents name items 0 items.length h)
  · intro name ok h
    obtain ⟨j, hj⟩ := progress_mem_appItemEvents name ok items 0 items.length h
    exact ⟨j, by rw [happ]; exact List.mem_append_left _ hj⟩
  · simp [process_images_thread, htool]
  · simp [process_images_thread, htool]
  · simp [process_images_thread, htool]

/-- Witness for `claim_C8_batch_continues` on scenario B (one corrupt file
among three): `processed = 2`, `skipped = 1`, an error message naming the
corrupt file, and the non-fatal `finished` summary. -/
theorem claim_C8_batch_continues_witness :
    AppEvent.error "corrupt.jpg" ∈
        threaded_add_watermarks none (fun _ => false)
          [("a.jpg", true), ("corrupt.jpg", false), ("c.jpg", true)] ∧
      threaded_add_watermarks none (fun _ => false)
          [("a.jpg", true), ("corrupt.jpg", false), ("c.jpg", true)] =
        appItemEvents [("a.jpg", true), ("corrupt.jpg", false), ("c.jpg", true)] 0
            (List.length [("a.jpg", true), ("corrupt.jpg", false), ("c.jpg", true)]) ++
          [AppEvent.finished
            (countOk [("a.jpg", true), ("corrupt.jpg", false), ("c.jpg", true)])
            (countFail [("a.jpg", true), ("corrupt.jpg", false), ("c.jpg", true)])
            none] :=
  ⟨(claim_C8_batch_continues
      [("a.jpg", true), ("corrupt.jpg", false), ("c.jpg", true)]).2.2.1
    "corrupt.jpg" (by decide),
   (claim_C8_batch_continues
      [("a.jpg", true), ("corrupt.jpg", false), ("c.jpg", true)]).1⟩

/-- **C9.**  Under a monotone cancellation flag first observed true at the
check before item `k` (with `k` before the end of the batch), both workers
stop at that check: only the first `k` items are attempted (the tool's
per-item status indices never exceed `k`), the processed/failed counts are
those of the first `k` items, the tool reports the cancelled status and
never the completion summary, and the app worker's `finished` message
carries the counts of the first `k` items. -/
theorem claim_C9_cancellation (stop : ℕ → Bool) (items : List (String × Bool))
    (k : ℕ) (hk : ∀ j, stop j = true ↔ k ≤ j) (hlt : k < items.length) :
    (process_images_thread stop items).2.1 = countOk (items.take k) ∧
    (process_images_thread stop items).2.2 = countFail (items.take k) ∧
    (process_images_thread stop items).1 =
      ToolEvent.statusStart ::
        (toolItemEvents (items.take k) 0 items.length ++
          [ToolEvent.statusCancelled]) ++ [ToolEvent.enableControls] ∧
    ToolEvent.statusCancelled ∈ (process_images_thread stop items).1 ∧
    (∀ j name, ToolEvent.itemStatus j items.length name ∈
      (process_images_thread stop items).1 → j ≤ k) ∧
    (∀ p e, ToolEvent.statusCompleted p e ∉ (process_images_thread stop items).1) ∧
    threaded_add_watermarks none stop items =
      appItemEvents (items.take k) 0 items.length ++
        [AppEvent.finished (countOk (items.take k)) (countFail (items.take k)) none] := by
  have hstop : stop items.length = true := (hk items.length).mpr (le_of_lt hlt)
  have hloop := processImagesLoop_char stop k hk items 0 items.length 0 0
  rw [Nat.sub_zero] at hloop
  have hevs : (process_images_thread stop items).1 =
      ToolEvent.statusStart ::
        (toolItemEvents (items.take k) 0 items.length ++
          [ToolEvent.statusCancelled]) ++ [ToolEvent.enableControls] := by
    simp [process_images_thread, hloop, hstop]
  refine ⟨by simp [process_images_thread, hloop], by simp [process_images_thread, hloop],
    hevs, ?_, ?_, ?_, ?_⟩
  · rw [hevs]
    simp
  · intro j name hmem
    rw [hevs] at hmem
    rcases List.mem_append.mp hmem with h2 | h2
    · rcases List.mem_cons.mp h2 with h3 | h3
      · cases h3
      · rcases List.mem_append.mp h3 with h4 | h4
        · have := itemStatus_mem_toolItemEvents j items.length name (items.take k) 0
            items.length h4
          have hlen : (items.take k).length ≤ k := by
            simp [List.length_take]
          omega
        · simp at h4
    · simp at h2
  · intro p e hmem
    rw [hevs] at hmem
    rcases List.mem_append.mp hmem with h2 | h2
    · rcases List.mem_cons.mp h2 with h3 | h3
      · cases h3
      · rcases List.mem_append.mp h3 with h4 | h4
        · exact statusCompleted_not_mem_toolItemEvents p e (items.take k) 0
            items.length h4
        · simp at h4
    · simp at h2
  · have hloopApp := threadedLoop_char stop k hk items 0 items.length 0 0
    rw [Nat.sub_zero] at hloopApp
    rw [threaded_add_watermarks]
    have hne : items.length ≠ 0 := by omega
    simp only [hne, if_false]
    rw [hloopApp]
    simp

/-- Witness for `claim_C9_cancellation` on scenario C (cancellation
observed after the first of five images): `processed = 1`, the cancelled
status is reported, and no later image is touched. -/
theorem claim_C9_cancellation_witness :
    (process_images_thread (fun j => decide (1 ≤ j))
        [("1", true), ("2", true), ("3", true), ("4", true), ("5", true)]).2.1 =
      countOk ([("1", true), ("2", true), ("3", true), ("4", true),
        ("5", true)].take 1) ∧
    (process_images_thread (fun j => decide (1 ≤ j))
        [("1", true), ("2", true), ("3", true), ("4", true), ("5", true)]).2.2 =
      countFail ([("1", true), ("2", true), ("3", true), ("4", true),
        ("5", true)].take 1) ∧
    (process_images_thread (fun j => decide (1 ≤ j))
        [("1", true), ("2", true), ("3", true), ("4", true), ("5", true)]).1 =
      ToolEvent.statusStart ::
        (toolItemEvents ([("1", true), ("2", true), ("3", true), ("4", true),
            ("5", true)].take 1) 0
          (List.length [("1", true), ("2", true), ("3", true), ("4", true),
            ("5", true)]) ++
          [ToolEvent.statusCancelled]) ++ [ToolEvent.enableControls] ∧
    ToolEvent.statusCancelled ∈
      (process_images_thread (fun j => decide (1 ≤ j))
        [("1", true), ("2", true), ("3", true), ("4", true), ("5", true)]).1 ∧
    (∀ j name, ToolEvent.itemStatus j
        (List.length [("1", true), ("2", true), ("3", true), ("4", true),
          ("5", true)]) name ∈
      (process_images_thread (fun j => decide (1 ≤ j))
        [("1", true), ("2", true), ("3", true), ("4", true), ("5", true)]).1 →
      j ≤ 1) ∧
    (∀ p e, ToolEvent.statusCompleted p e ∉
      (process_images_thread (fun j => decide (1 ≤ j))
        [("1", true), ("2", true), ("3", true), ("4", true), ("5", true)]).1) ∧
    threaded_add_watermarks none (fun j => decide (1 ≤ j))
        [("1", true), ("2", true), ("3", true), ("4", true), ("5", true)] =
      appItemEvents ([("1", true), ("2", true), ("3", true), ("4", true),
          ("5", true)].take 1) 0
        (List.length [("1", true), ("2", true), ("3", true), ("4", true),
          ("5", true)]) ++
        [AppEvent.finished
          (countOk ([("1", true), ("2", true), ("3", true), ("4", true),
            ("5", true)].take 1))
          (countFail ([("1", true), ("2", true), ("3", true), ("4", true),
            ("5", true)].take 1)) none] :=
  claim_C9_cancellation (fun j => decide (1 ≤ j))
    [("1", true), ("2", true), ("3", true), ("4", true), ("5", true)] 1
    (fun j => by simp) (by decide)

/-- **C1, counterexample.**  With every character 10 wide, space width 10
and `maxWidth = 25`, the text `aa bb` wraps: `bb` is retried on a fresh
line and the separating space is never emitted, so the emitted run texts
concatenate to `aabb`, not `aa bb`. -/
theorem claim_C1_counterexample :
    ((draw_watermark (fun _ => (10 : ℚ)) (fun _ => 10) 10 ("aa bb".data)
        0 0 25).map Run.ch) = "aabb".data ∧
      "aabb".data ≠ "aa bb".data := by
  constructor
  · norm_num [draw_watermark, drawLoop, splitSpace, wordItems, itemsWidth,
      flushRuns, lineHeight, forcedEmit]
  · decide

/-- **C1, amended.**  Concatenating the emitted run texts in order yields
the original text with some separating spaces deleted (one at each word
boundary where a line wrap or forced break occurred): the concatenation is
a sublist of the text obtained by deleting only space characters, and
deleting all spaces from both sides gives equal sequences, so no non-space
character is lost, duplicated or reordered; exact reconstruction holds
only when no wrap consumes a separator. -/
theorem claim_C1_text_reconstruction (cw chH : Char → ℚ)
    (spaceW xStart yStart maxW : ℚ) (text : List Char) :
    List.Sublist
      ((draw_watermark cw chH spaceW text xStart yStart maxW).map Run.ch) text ∧
    ((draw_watermark cw chH spaceW text xStart yStart maxW).map Run.ch).filter
        (fun c => c != ' ') =
      text.filter (fun c => c != ' ') := by
  constructor
  · rw [draw_watermark]
    by_cases ht : text.isEmpty
    · rw [if_pos ht]
      simp
    · rw [if_neg ht]
      have h := drawLoop_chars_sublist cw chH spaceW xStart maxW
        (splitSpace text) [] 0 yStart
      simpa [joinSpace_splitSpace] using h
  · rw [draw_watermark]
    by_cases ht : text.isEmpty
    · rw [if_pos ht]
      have hte : text = [] := by simpa using ht
      simp [hte]
    · rw [if_neg ht]
      rw [drawLoop_chars_filter cw chH spaceW xStart maxW (fun c => c != ' ')
        (by decide) (splitSpace text) [] 0 yStart]
      rw [← joinSpace_filter (fun c => c != ' ') (by decide) (splitSpace text),
        joinSpace_splitSpace]
      simp

/-- **C2.**  Every emitted run (each run is a single drawn character,
including inter-word spaces) satisfies `run.x + run.width ≤ originX +
maxWidth`, except runs whose own width exceeds `maxWidth` (single
characters wider than the budget, drawn at the line start by the forced
break).  Positions are the layout's float coordinates; character and
space widths are nonnegative, as Pillow metrics are. -/
theorem claim_C2_runs_within_width (cw chH : Char → ℚ)
    (spaceW xStart yStart maxW : ℚ) (text : List Char)
    (hcw : ∀ c, 0 ≤ cw c) (hsp : 0 ≤ spaceW) :
    ∀ r ∈ draw_watermark cw chH spaceW text xStart yStart maxW,
      r.x + r.w ≤ xStart + maxW ∨ maxW < r.w := by
  intro r hr
  rw [draw_watermark] at hr
  by_cases ht : text.isEmpty
  · rw [if_pos ht] at hr
    cases hr
  · rw [if_neg ht] at hr
    exact drawLoop_bound cw chH spaceW xStart maxW hcw hsp (splitSpace text)
      [] 0 yStart (by simp) (by simp [itemsWidth]) (Or.inl rfl) r hr

/-- Witness for `claim_C2_runs_within_width`: the last run of the wrapped
two-word layout satisfies the bound. -/
theorem claim_C2_runs_within_width_witness :
    (⟨'b', 10, 10, 10, 10⟩ : Run).x + (⟨'b', 10, 10, 10, 10⟩ : Run).w ≤ 0 + 25 ∨
      (25 : ℚ) < (⟨'b', 10, 10, 10, 10⟩ : Run).w := by
  have hlist : draw_watermark (fun _ => (10 : ℚ)) (fun _ => 10) 10
      ("aa bb".data) 0 0 25 =
      [⟨'a', 0, 0, 10, 10⟩, ⟨'a', 10, 0, 10, 10⟩,
        ⟨'b', 0, 10, 10, 10⟩, ⟨'b', 10, 10, 10, 10⟩] := by
    norm_num [draw_watermark, drawLoop, splitSpace, wordItems, itemsWidth,
      flushRuns, lineHeight, forcedEmit]
  exact claim_C2_runs_within_width (fun _ => (10 : ℚ)) (fun _ => 10) 10 0 0 25
    ("aa bb".data) (fun c => by norm_num) (by norm_num) _
    (by rw [hlist]; simp)

end PicTool
